import Mathlib

/-!
Shallow embedding of the `cerebru` sharded LRU cache (Go) and verification of
the frozen claims about it.

Modelling conventions, used uniformly below:
* Go pointers (`*Nodes`) become node identifiers `NodeId := Nat` resolved in an
  explicit store (`Store`, an association list `NodeId → NodeData`).  A nil
  pointer is `Option.none`.  Dereferencing nil — a Go panic — makes the
  modelled operation return `none`.
* Go maps become insertion-ordered association lists; `map[k]` missing yields
  the zero value, which we reproduce where the source relies on it
  (`nodeIndex` lookups default to `0`).
* Machine integers: Go `int`/`int64` are `Int`; Go `uint64` is `Nat` reduced
  mod `2^64` at each arithmetic step (`u64add`/`u64sub`).
* `time.Now().Unix()` becomes an explicit `now : Int` parameter, one per
  public operation (all clock reads inside one operation see the same second).
* Each Go function keeps its source name.
-/

namespace Cerebru

/-! ### Machine-integer helpers -/

def U64MOD : Nat := 2 ^ 64

/-- Addition of Go `uint64` values. -/
def u64add (a b : Nat) : Nat := (a + b) % U64MOD

/-- Subtraction of Go `uint64` values (wraps on underflow, as in Go). -/
def u64sub (a b : Nat) : Nat := (a % U64MOD + (U64MOD - b % U64MOD)) % U64MOD

/-- Go conversion `uint64(i)` from `int` (two's-complement wrap). -/
def intToU64 (i : Int) : Nat := (i % (U64MOD : Int)).toNat

/-! ### Association-list helpers (Go maps, deterministically ordered) -/

def assocFind {K V : Type} [DecidableEq K] : List (K × V) → K → Option V
  | [], _ => none
  | (k, v) :: rest, key => if k = key then some v else assocFind rest key

/-- `m[k] = v`: update in place if present, else append. -/
def assocSet {K V : Type} [DecidableEq K] : List (K × V) → K → V → List (K × V)
  | [], key, v => [(key, v)]
  | (k, w) :: rest, key, v =>
      if k = key then (k, v) :: rest else (k, w) :: assocSet rest key v

/-- `delete(m, k)`. -/
def assocErase {K V : Type} [DecidableEq K] : List (K × V) → K → List (K × V)
  | [], _ => []
  | (k, w) :: rest, key =>
      if k = key then rest else (k, w) :: assocErase rest key

/-! ### Data model -/

/-- Node identifier: stands for a Go `*Nodes` pointer value. -/
abbrev NodeId := Nat

/-- Cache payload (`interface{}` in the source); opaque, modelled as `Nat`. -/
abbrev Val := Nat

/-- The `Nodes` struct: one cache entry.
`prev`/`next` are the recency-list pointers (`none` = Go nil),
`expiredAt`/`lastUsed` are Unix seconds, `nodeSize` is the caller's cost. -/
structure NodeData where
  key : String
  value : Val
  prev : Option NodeId
  next : Option NodeId
  expiredAt : Int
  lastUsed : Int
  nodeSize : Nat
deriving DecidableEq, Repr

/-- Zero value of `Nodes` (`&Nodes{}`), used for the list sentinels. -/
def blankNode : NodeData :=
  { key := "", value := 0, prev := none, next := none,
    expiredAt := 0, lastUsed := 0, nodeSize := 0 }

/-- The global node store: every `*Nodes` ever allocated.  Nodes are never
removed (Go's GC keeps any referenced node alive). -/
abbrev Store := List (NodeId × NodeData)

def storeFind (σ : Store) (id : NodeId) : Option NodeData := assocFind σ id

def storeSet (σ : Store) (id : NodeId) (nd : NodeData) : Store := assocSet σ id nd

/-- The `NodeShards` struct (one shard), minus the lock and the cleaner
channel, which have no sequential content. -/
structure NodeShards where
  pool : List (String × NodeId)
  head : NodeId
  tail : NodeId
  capacity : Int
  size : Int
  evictionHeap : List NodeId
  nodeIndex : List (NodeId × Int)
  shardSize : Nat
deriving DecidableEq, Repr

/-- The `CacheManager` struct plus the allocation state of the node store.
`jchNumBuckets`/`jchCache` embed the `crypt.JCH` router. -/
structure CacheManager where
  pool : List NodeShards
  enableAutoCleaner : Bool
  enableDynamicShardScaling : Bool
  shardCap : Int
  nodeCap : Int
  maxCost : Nat
  jchNumBuckets : Int
  jchCache : List (String × Nat)
  store : Store
  nextId : NodeId
deriving DecidableEq, Repr

/-- The `Config` struct. -/
structure Config where
  enableCleaner : Bool
  enableDynamicSharding : Bool
  shardCap : Int
  nodeCap : Int
  maxCost : Nat
deriving DecidableEq, Repr

/-! ### Unit constants (units.go) -/

def UnitByte : Nat := 1
def UnitKB : Nat := 1 <<< 10
def UnitMB : Nat := 1 <<< 20
def UnitGB : Nat := 1 <<< 30

/-! ### Hasher / router (internal/crypt/crypt.go) -/

/-- `JCH.Hash`: 64-bit FNV-1a over the key's UTF-8 bytes (`hash/fnv.New64a`). -/
def Hash (key : String) : Nat :=
  key.toUTF8.data.toList.foldl
    (fun h b => ((h ^^^ b.toNat) * 0x100000001b3) % U64MOD)
    0xcbf29ce484222325

/-- `JCH.GetBucket`: memoised `Hash(key) mod uint64(numBuckets)` keyed by the
*construction-time* bucket count.  Returns `none` on the Go panic
(mod by zero when `numBuckets = 0`). -/
def GetBucket (numBuckets : Int) (cache : List (String × Nat)) (key : String) :
    Option (List (String × Nat) × Nat) :=
  match assocFind cache key with
  | some b => some (cache, b)
  | none =>
      let n := intToU64 numBuckets
      if n = 0 then none
      else
        let b := Hash key % n
        some (assocSet cache key b, b)

/-! ### EvictionHeap (last file of units.go) and Go's `container/heap`

The heap is a Go slice of `*Nodes`; here a `List NodeId`.  `Less` consults the
store for `lastUsed`; its nil-pointer branches are mirrored by the
`storeFind`-failure branches (unreachable: every id in a heap is allocated).
Indices are Go `int`s, hence `Int` here; the source's own bounds guards in
`Less` and `Swap` are reproduced verbatim. -/

def ehGet (eh : List NodeId) (i : Int) : Option NodeId :=
  if i < 0 then none else eh.get? i.toNat

/-- `EvictionHeap.Less` with its out-of-range and nil guards. -/
def ehLess (σ : Store) (eh : List NodeId) (next prev : Int) : Bool :=
  if next ≥ (eh.length : Int) ∨ prev ≥ (eh.length : Int) then false
  else
    match ehGet eh next, ehGet eh prev with
    | some a, some b =>
        match storeFind σ a, storeFind σ b with
        | none, none => false
        | none, some _ => false
        | some _, none => true
        | some na, some nb => decide (na.lastUsed < nb.lastUsed)
    | _, _ => false

/-- `EvictionHeap.Swap` with its bounds guard (out of range: no-op). -/
def ehSwap (eh : List NodeId) (next prev : Int) : List NodeId :=
  if next < 0 ∨ next ≥ (eh.length : Int) ∨ prev < 0 ∨ prev ≥ (eh.length : Int) then eh
  else
    match eh.get? next.toNat, eh.get? prev.toNat with
    | some a, some b => (eh.set next.toNat b).set prev.toNat a
    | _, _ => eh

/-- `EvictionHeap.Pop` (raw slice pop used by `container/heap`): returns the
last element, or nil on an empty slice. -/
def ehPopRaw (eh : List NodeId) : List NodeId × Option NodeId :=
  match eh.getLast? with
  | none => (eh, none)
  | some item => (eh.dropLast, some item)

/-- `container/heap.down` (the sift-down loop); returns the final index `i`
together with the mutated slice; the Go function's result is `i > i0`.
The loop can only continue while `0 ≤ i` and the new index `2i+1` (or `2i+2`)
is `< n`, so it runs at most `n ≤ eh.length` times; callers pass
`fuel = eh.length + 1`, which the loop therefore never exhausts, keeping the
recursion structural. -/
def downGo (σ : Store) (n : Int) : Nat → List NodeId → Int → List NodeId × Int
  | 0, eh, i => (eh, i)
  | fuel + 1, eh, i =>
      if 2 * i + 1 ≥ n ∨ 2 * i + 1 < 0 then (eh, i)
      else
        let j : Int :=
          if 2 * i + 2 < n ∧ ehLess σ eh (2 * i + 2) (2 * i + 1) then 2 * i + 2
          else 2 * i + 1
        if ehLess σ eh j i then downGo σ n fuel (ehSwap eh i j) j
        else (eh, i)

/-- `container/heap.up` (the sift-up loop); Go's `(j-1)/2` is truncating
division, `Int.tdiv` here.  The loop continues only while `1 ≤ j < eh.length`
(`Less` is false outside the slice) and `j` strictly decreases, so
`fuel = eh.length + 1` is never exhausted. -/
def upGo (σ : Store) : Nat → List NodeId → Int → List NodeId
  | 0, eh, _ => eh
  | fuel + 1, eh, j =>
      if Int.tdiv (j - 1) 2 = j ∨ ¬ ehLess σ eh j (Int.tdiv (j - 1) 2) then eh
      else upGo σ fuel (ehSwap eh (Int.tdiv (j - 1) 2) j) (Int.tdiv (j - 1) 2)

/-- `container/heap.Init`: sift down at `n/2 - 1, …, 0`.  The counter `k`
stands for the loop index `i = k - 1`, so the recursion is structural. -/
def heapInitGo (σ : Store) (n : Int) : Nat → List NodeId → List NodeId
  | 0, eh => eh
  | k + 1, eh => heapInitGo σ n k (downGo σ n (eh.length + 1) eh (k : Int)).1

def heapInit (σ : Store) (eh : List NodeId) : List NodeId :=
  heapInitGo σ (eh.length : Int) (Int.tdiv (eh.length : Int) 2).toNat eh

/-- `container/heap.Push`: raw append, then sift up from the last slot. -/
def heapPush (σ : Store) (eh : List NodeId) (id : NodeId) : List NodeId :=
  upGo σ (eh.length + 2) (eh ++ [id]) ((eh.length : Int) + 1 - 1)

/-- `container/heap.Pop`: swap root with last, sift down, raw pop. -/
def heapPop (σ : Store) (eh : List NodeId) : List NodeId × Option NodeId :=
  let n : Int := (eh.length : Int) - 1
  ehPopRaw (downGo σ n (eh.length + 1) (ehSwap eh 0 n) 0).1

/-- `container/heap.Remove` at index `i`. -/
def heapRemove (σ : Store) (eh : List NodeId) (i : Int) : List NodeId × Option NodeId :=
  let n : Int := (eh.length : Int) - 1
  if n ≠ i then
    let p := downGo σ n (eh.length + 1) (ehSwap eh i n) i
    ehPopRaw (if p.2 > i then p.1 else upGo σ (eh.length + 1) p.1 i)
  else ehPopRaw eh

/-- `EvictionHeap.RemoveNode`: linear scan for the pointer, splice it out,
re-`Init`; no-op when absent. -/
def ehRemoveNode (σ : Store) (eh : List NodeId) (node : NodeId) : List NodeId :=
  match eh.findIdx? (· = node) with
  | some i => heapInit σ (eh.eraseIdx i)
  | none => eh

/-! ### Shard operations (units.go)

Each operation threads the node store and returns `none` exactly where the Go
code would dereference a nil pointer. -/

/-- `NodeShards.addToHead`: splice `id` between the head sentinel and its
successor, stamp `lastUsed`, push onto the heap, and record the push index in
`nodeIndex`. -/
def addToHead (σ : Store) (ns : NodeShards) (id : NodeId) (now : Int) :
    Option (Store × NodeShards) := do
  let nd ← storeFind σ id
  -- node.prev = ns.head
  let σ := storeSet σ id { nd with prev := some ns.head }
  -- nextNode := ns.head.next
  let hd ← storeFind σ ns.head
  match hd.next with
  | none => none        -- `nextNode.prev = node` would dereference nil
  | some nextId => do
    -- node.next = nextNode
    let nd1 ← storeFind σ id
    let σ := storeSet σ id { nd1 with next := some nextId }
    -- nextNode.prev = node
    let nx ← storeFind σ nextId
    let σ := storeSet σ nextId { nx with prev := some id }
    -- ns.head.next = node
    let hd2 ← storeFind σ ns.head
    let σ := storeSet σ ns.head { hd2 with next := some id }
    -- node.lastUsed = now
    let nd2 ← storeFind σ id
    let σ := storeSet σ id { nd2 with lastUsed := now }
    let eh := heapPush σ ns.evictionHeap id
    some (σ, { ns with
      evictionHeap := eh,
      nodeIndex := assocSet ns.nodeIndex id ((eh.length : Int) - 1) })

/-- `NodeShards.removeFromTail` — the splice that is *supposed* to unlink
`id`, transcribed exactly: it rewires `node.prev.next` to the tail sentinel
and `tail.prev` to `node.prev`, which also detaches every node between `id`
and the tail. -/
def removeFromTail (σ : Store) (ns : NodeShards) (id : NodeId) : Option Store := do
  let nd ← storeFind σ id
  match nd.prev with
  | none => some σ      -- if node.prev == nil { return }
  | some p => do
    let pd ← storeFind σ p
    -- if node.prev.next != nil && shard.tail != nil { node.prev.next = shard.tail }
    let σ := if pd.next ≠ none then storeSet σ p { pd with next := some ns.tail } else σ
    -- if shard.tail.prev != nil && node.prev != nil { shard.tail.prev = node.prev }
    let td ← storeFind σ ns.tail
    let σ := if td.prev ≠ none then storeSet σ ns.tail { td with prev := some p } else σ
    some σ

/-- `NodeShards.removeNode`: unlink from the list, then `heap.Remove` at the
*stored* index (`nodeIndex[node]`, Go zero value `0` when absent — the stored
index is never refreshed by `Swap`, so it can be stale). -/
def removeNode (σ : Store) (ns : NodeShards) (id : NodeId) :
    Option (Store × NodeShards) := do
  let σ ← removeFromTail σ ns id
  let idx := (assocFind ns.nodeIndex id).getD 0
  let eh := (heapRemove σ ns.evictionHeap idx).1
  some (σ, { ns with evictionHeap := eh, nodeIndex := assocErase ns.nodeIndex id })

/-- `NodeShards.removeTail`: takes `tail.prev` — with no sentinel guard — and
removes it, returning it. -/
def removeTail (σ : Store) (ns : NodeShards) :
    Option (Store × NodeShards × NodeId) := do
  let td ← storeFind σ ns.tail
  let id ← td.prev
  let (σ, ns) ← removeNode σ ns id
  some (σ, ns, id)

/-- `NodeShards.moveToHead`. -/
def moveToHead (σ : Store) (ns : NodeShards) (id : NodeId) (now : Int) :
    Option (Store × NodeShards) := do
  let (σ, ns) ← removeNode σ ns id
  addToHead σ ns id now

/-- `NodeShards.moveToTail`: guard against the sentinel, unlink `tail.prev`,
then a *raw* slice pop of the heap (`shard.evictionHeap.Pop()`, not
`container/heap.Pop`). -/
def moveToTail (σ : Store) (ns : NodeShards) : Option (Store × NodeShards) := do
  let td ← storeFind σ ns.tail
  if td.prev ≠ some ns.head then do
    let id ← td.prev
    let σ ← removeFromTail σ ns id
    some (σ, { ns with evictionHeap := (ehPopRaw ns.evictionHeap).1 })
  else
    some (σ, ns)

/-- First phase of `NodeShards.cleanExpired`: walk the map snapshot, removing
every entry with `expiredAt > 0 ∧ expiredAt ≤ now` and counting them.  The
loop body does not touch `ns.size` or `ns.shardSize`. -/
def cleanExpiredWalk (now : Int) :
    List (String × NodeId) → Store → NodeShards → Nat →
    Option (Store × NodeShards × Nat)
  | [], σ, ns, cnt => some (σ, ns, cnt)
  | (key, id) :: rest, σ, ns, cnt => do
    let nd ← storeFind σ id
    if nd.expiredAt > 0 ∧ nd.expiredAt ≤ now then do
      let (σ, ns) ← removeNode σ ns id
      let ns := { ns with pool := assocErase ns.pool key }
      cleanExpiredWalk now rest σ ns (cnt + 1)
    else
      cleanExpiredWalk now rest σ ns cnt

/-- The trim loop at the end of `cleanExpired`:
`for ns.size > ns.capacity { evicted := heap.Pop(...); delete(pool, key) }`.
The body never decrements `ns.size`, so the guard can never become false once
true; `fuel` bounds the number of iterations we unfold, and `none` means the
fuel ran out with the loop still running. -/
def cleanExpiredTrim (σ : Store) : Nat → NodeShards → Option (Store × NodeShards)
  | 0, _ => none
  | fuel + 1, ns =>
    if ns.size > ns.capacity then
      let pr := heapPop σ ns.evictionHeap
      let ns1 : NodeShards := { ns with evictionHeap := pr.1 }
      match pr.2 with
      | some id =>
        match storeFind σ id with
        | some nd =>
            cleanExpiredTrim σ fuel { ns1 with pool := assocErase ns1.pool nd.key }
        | none => none  -- `evictedNode.(*Nodes).Key` on a dangling pointer
      | none => cleanExpiredTrim σ fuel ns1
    else
      some (σ, ns)

/-- `NodeShards.cleanExpired` (the sweep): expired-entry walk, then the trim
loop.  The `ns.evictionHeap == nil` early return is dead in this model — the
heap is always allocated at shard construction. -/
def cleanExpired (fuel : Nat) (σ : Store) (ns : NodeShards) (now : Int) :
    Option (Store × NodeShards × Nat) := do
  let (σ, ns, cnt) ← cleanExpiredWalk now ns.pool σ ns 0
  let (σ, ns) ← cleanExpiredTrim σ fuel ns
  some (σ, ns, cnt)

/-! ### Observation helpers (not part of the source)

`reachForward` materialises "the nodes reachable from the head sentinel by
following `.next`, up to the tail sentinel" — the recency list's contents as
the spec describes them.  `fuel` bounds the walk so it is total; a walk that
hits nil or runs out of fuel just stops. -/

def walkNext (σ : Store) (stop : NodeId) : Nat → Option NodeId → List NodeId
  | _, none => []
  | 0, some _ => []
  | fuel + 1, some id =>
      if id = stop then []
      else id :: walkNext σ stop fuel ((storeFind σ id).bind (·.next))

def reachForward (σ : Store) (ns : NodeShards) (fuel : Nat) : List NodeId :=
  walkNext σ ns.tail fuel ((storeFind σ ns.head).bind (·.next))

/-- Sum of the stored `nodeSize` cost over the live entries of a shard's map
(the spec's `cost_sum` over live entries). -/
def liveCostSum (σ : Store) (ns : NodeShards) : Nat :=
  ns.pool.foldl (fun acc kv => acc + ((storeFind σ kv.2).map (·.nodeSize)).getD 0) 0

/-! ### Manager operations (cerebru.go and the unnamed manager file) -/

/-- `CacheManager.addShard`: allocate the two sentinels, wire them to each
other, `heap.Init` the empty heap, append the shard. -/
def addShard (m : CacheManager) : CacheManager :=
  let hid := m.nextId
  let tid := m.nextId + 1
  let σ := storeSet (storeSet m.store hid blankNode) tid blankNode
  -- shard.head.next = shard.tail ; shard.tail.prev = shard.head
  let σ := storeSet σ hid { blankNode with next := some tid }
  let σ := storeSet σ tid { blankNode with prev := some hid }
  let shard : NodeShards :=
    { pool := [], head := hid, tail := tid, capacity := m.nodeCap, size := 0,
      evictionHeap := heapInit σ [], nodeIndex := [], shardSize := 0 }
  { m with store := σ, nextId := m.nextId + 2, pool := m.pool ++ [shard] }

/-- `New`: no validation of the configuration; `make([]*NodeShards, 0, cap)`
panics only on a negative capacity, hence the single `none` case.  Dynamic
sharding starts with 4 shards regardless of `shardCap`; otherwise exactly
`shardCap` shards are created. -/
def New (opt : Config) : Option CacheManager :=
  if opt.shardCap < 0 then none
  else
    let defaultMaxCost := if opt.maxCost = 0 then 512 * UnitMB else opt.maxCost
    let initialShards : Int := if opt.enableDynamicSharding then 4 else opt.shardCap
    let base : CacheManager :=
      { pool := [], enableAutoCleaner := opt.enableCleaner,
        enableDynamicShardScaling := opt.enableDynamicSharding,
        shardCap := opt.shardCap, nodeCap := opt.nodeCap,
        maxCost := defaultMaxCost, jchNumBuckets := opt.shardCap,
        jchCache := [], store := [], nextId := 0 }
    some ((List.range initialShards.toNat).foldl (fun acc _ => addShard acc) base)

/-- The scan inside `findLeastLoadedShard`, tracking the index of the current
target pointer. -/
def findLeastGo : List NodeShards → Nat → Int → Option Nat → Option Nat
  | [], _, _, target => target
  | s :: rest, idx, minLoad, target =>
      if (s.pool.length : Int) < minLoad then
        findLeastGo rest (idx + 1) (s.pool.length : Int) (some idx)
      else
        findLeastGo rest (idx + 1) minLoad target

/-- `CacheManager.findLeastLoadedShard`; `minLoad` starts at
`int(^uint(0) >> 1) = 2^63 - 1`.  `none` models the nil target pointer
(possible only on an empty pool). -/
def findLeastLoadedShard (m : CacheManager) : Option Nat :=
  findLeastGo m.pool 0 (2 ^ 63 - 1) none

/-- `CacheManager.moveToTail` caller loop inside `rebalanceNodes`: re-home the
collected nodes one at a time into `Hash(key) mod len(pool)`. -/
def rebalanceLoop (now : Int) :
    List NodeId → Store → List NodeShards → Option (Store × List NodeShards)
  | [], σ, pool => some (σ, pool)
  | id :: rest, σ, pool => do
    let nd ← storeFind σ id
    if _hp : pool.length = 0 then none    -- mod by zero
    else
      let idx := Hash nd.key % pool.length
      match pool.get? idx with
      | none => none
      | some shard => do
        let (σ, shard) ←
          if shard.size ≥ shard.capacity then moveToTail σ shard
          else some (σ, shard)
        let shard := { shard with pool := assocSet shard.pool nd.key id }
        let (σ, shard) ← addToHead σ shard id now
        let shard := { shard with size := shard.size + 1 }
        rebalanceLoop now rest σ (pool.set idx shard)

/-- `CacheManager.rebalanceNodes`: collect every node pointer (shard order,
map order), clear every map and `size` counter (heaps, `nodeIndex` and
`shardSize` are *not* cleared), then re-home each node. -/
def rebalanceNodes (m : CacheManager) (now : Int) : Option CacheManager := do
  let allNodes := m.pool.foldl (fun acc s => acc ++ s.pool.map Prod.snd) []
  let pool := m.pool.map fun s => { s with pool := ([] : List (String × NodeId)), size := 0 }
  let (σ, pool) ← rebalanceLoop now allNodes m.store pool
  some { m with store := σ, pool := pool }

/-- The backwards removal loop of `removeShardAndRebalance`: drop any
zero-size shard while more than two remain.  The counter `k` stands for the
loop index `i = k - 1`, so the recursion is structural. -/
def removeShardLoop : Nat → List NodeShards → List NodeShards
  | 0, pool => pool
  | k + 1, pool =>
      let pool :=
        match pool.get? k with
        | some s => if s.size = 0 ∧ pool.length > 2 then pool.eraseIdx k else pool
        | none => pool
      removeShardLoop k pool

/-- `CacheManager.removeShardAndRebalance`. -/
def removeShardAndRebalance (m : CacheManager) (now : Int) : Option CacheManager :=
  rebalanceNodes { m with pool := removeShardLoop m.pool.length m.pool } now

/-- `CacheManager.dynamicShardScaling`: both triggers are evaluated against
the incoming pool; grow runs first, then shrink.  There is no check of
`shardCap` anywhere. -/
def dynamicShardScaling (m : CacheManager) (now : Int) : Option CacheManager := do
  let addShardNeeded := m.pool.any fun s => decide (s.size ≥ m.nodeCap - 1)
  let removeShardNeeded := m.pool.any fun s =>
    decide (s.size ≤ Int.tdiv m.nodeCap 4 ∧ m.pool.length > 2)
  let m ← if addShardNeeded then rebalanceNodes (addShard m) now else some m
  if removeShardNeeded then removeShardAndRebalance m now else some m

/-- Fresh-insert tail shared by `Set` (which leaves `expiredAt` at the zero
value `0`) and `SetTTL` (which passes the computed expiry): create the node,
add the cost, splice to head, put into the map, bump `size`, then evict the
tail on overflow (`evicted != nil` always holds — `removeTail` never returns
nil). -/
def setInsertFresh (m : CacheManager) (idx : Nat) (σ : Store) (shard : NodeShards)
    (key : String) (val : Val) (size : Nat) (exp now : Int) : Option CacheManager := do
  let id := m.nextId
  let σ := storeSet σ id
    { blankNode with key := key, value := val, nodeSize := size, expiredAt := exp }
  let shard := { shard with shardSize := u64add shard.shardSize size }
  let (σ, shard) ← addToHead σ shard id now
  let shard := { shard with pool := assocSet shard.pool key id, size := shard.size + 1 }
  let (σ, shard) ←
    if shard.size > shard.capacity then do
      let (σ, shard, evId) ← removeTail σ shard
      let ev ← storeFind σ evId
      some (σ, { shard with pool := assocErase shard.pool ev.key, size := shard.size - 1 })
    else some (σ, shard)
  some { m with store := σ, nextId := m.nextId + 1, pool := m.pool.set idx shard }

/-- Routing prefix shared by `Set` and `SetTTL`: hash the key, index into the
pool, and when that shard is full re-target the least-loaded shard. -/
def setRoute (m : CacheManager) (key : String) : Option (Nat × NodeShards) := do
  let hashVal := Hash key
  if _hp : m.pool.length = 0 then none       -- hashVal % 0 panics
  else
    let shardIndex := hashVal % m.pool.length
    match m.pool.get? shardIndex with
    | none => none
    | some shard =>
      if shard.size ≥ shard.capacity then do
        let j ← findLeastLoadedShard m       -- nil target would panic below
        match m.pool.get? j with
        | none => none
        | some s => some (j, s)
      else
        some (shardIndex, shard)

/-- `CacheManager.Set`.  On an existing key: the node counts as expired
already when `expiredAt >= 0 ∧ expiredAt <= now` (note `>= 0`, so a
no-TTL entry always qualifies), and the removal subtracts the *argument*
`size` from `shardSize`; a live entry is updated in place with
`expiredAt = now + 12h`.  A fresh insert leaves `expiredAt = 0`. -/
def Set (m : CacheManager) (key : String) (val : Val) (size : Nat) (now : Int) :
    Option CacheManager := do
  let m ← if m.enableDynamicShardScaling then dynamicShardScaling m now else some m
  let (idx, shard) ← setRoute m key
  match assocFind shard.pool key with
  | some id => do
    let nd ← storeFind m.store id
    if nd.expiredAt ≥ 0 ∧ nd.expiredAt ≤ now then do
      let shard := { shard with shardSize := u64sub shard.shardSize size }
      let (σ, shard) ← removeNode m.store shard id
      let shard := { shard with pool := assocErase shard.pool key, size := shard.size - 1 }
      setInsertFresh { m with store := σ } idx σ shard key val size 0 now
    else do
      let σ := storeSet m.store id
        { nd with value := val, nodeSize := size, expiredAt := now + 12 * 3600 }
      some { m with store := σ, pool := m.pool.set idx shard }
  | none => setInsertFresh m idx m.store shard key val size 0 now

/-- `CacheManager.SetTTL`: `ttl` is modelled in whole seconds; `ttl > 0`
yields `expiry = now + ttl`, otherwise `expiry = 0` (never expires).  On an
existing key the cost bookkeeping uses the node's stored size (unlike `Set`)
and the entry is touched to the head. -/
def SetTTL (m : CacheManager) (key : String) (val : Val) (size : Nat)
    (ttl now : Int) : Option CacheManager := do
  let m ← if m.enableDynamicShardScaling then dynamicShardScaling m now else some m
  let (idx, shard) ← setRoute m key
  let expiry : Int := if ttl > 0 then now + ttl else 0
  match assocFind shard.pool key with
  | some id => do
    let nd ← storeFind m.store id
    let σ := storeSet m.store id
      { nd with value := val, nodeSize := size, expiredAt := expiry }
    let shard :=
      { shard with shardSize := u64add (u64sub shard.shardSize nd.nodeSize) size }
    let (σ, shard) ← moveToHead σ shard id now
    some { m with store := σ, pool := m.pool.set idx shard }
  | none => setInsertFresh m idx m.store shard key val size expiry now

/-- `CacheManager.Get`: miss on an absent key; delete-and-miss on
`expiredAt > 0 ∧ expiredAt ≤ now`; otherwise touch to the head and return the
value. -/
def Get (m : CacheManager) (key : String) (now : Int) :
    Option (CacheManager × Option Val) := do
  let hashVal := Hash key
  if _hp : m.pool.length = 0 then none
  else
    let shardIndex := hashVal % m.pool.length
    match m.pool.get? shardIndex with
    | none => none
    | some shard =>
      match assocFind shard.pool key with
      | some id => do
        let nd ← storeFind m.store id
        if nd.expiredAt > 0 ∧ nd.expiredAt ≤ now then do
          let shard := { shard with shardSize := u64sub shard.shardSize nd.nodeSize }
          let (σ, shard) ← removeNode m.store shard id
          let shard :=
            { shard with pool := assocErase shard.pool key, size := shard.size - 1 }
          some ({ m with store := σ, pool := m.pool.set shardIndex shard }, none)
        else do
          let (σ, shard) ← moveToHead m.store shard id now
          let nd2 ← storeFind σ id
          some ({ m with store := σ, pool := m.pool.set shardIndex shard },
                some nd2.value)
      | none => some (m, none)

/-- `CacheManager.Remove`: routes through the *memoised* `GetBucket` (keyed by
the construction-time `shardCap`), then on a hit removes the node from the
heap by pointer scan, unlinks it, deletes it from the map, decrements `size`
(but never `shardSize`), and re-`Init`s the heap. -/
def Remove (m : CacheManager) (key : String) : Option CacheManager := do
  let (jcache, hashVal) ← GetBucket m.jchNumBuckets m.jchCache key
  let m := { m with jchCache := jcache }
  if _hp : m.pool.length = 0 then none
  else
    let shardIndex := hashVal % m.pool.length
    match m.pool.get? shardIndex with
    | none => none
    | some shard =>
      match assocFind shard.pool key with
      | some id => do
        let shard :=
          { shard with evictionHeap := ehRemoveNode m.store shard.evictionHeap id }
        let (σ, shard) ← removeNode m.store shard id
        let shard :=
          { shard with pool := assocErase shard.pool key, size := shard.size - 1 }
        let shard := { shard with evictionHeap := heapInit σ shard.evictionHeap }
        some { m with store := σ, pool := m.pool.set shardIndex shard }
      | none => some m

/-! ### Concrete scenarios used by the claim verdicts -/

instance : Inhabited NodeShards := ⟨⟨[], 0, 0, 0, 0, [], [], 0⟩⟩

instance : Inhabited CacheManager := ⟨⟨[], false, false, 0, 0, 0, 0, [], [], 0⟩⟩

/-- Static configuration with a single shard of capacity 4: every key routes
to shard 0. -/
def cfgOneShard : Config := ⟨false, false, 1, 4, 0⟩

/-- Insert `"a"` (cost 7, ttl 50 s) at t=100, then sweep at t=200: the entry
is expired, so the sweep removes it. -/
def c1run : Option (Store × NodeShards × Nat) := do
  let m ← New cfgOneShard
  let m ← SetTTL m "a" 11 7 50 100
  let s ← m.pool.get? 0
  cleanExpired 10 m.store s 200

/-- Insert `"a"`, `"b"`, `"c"` (recency list head→`c`,`b`,`a`→tail), then
`Get "b"` — a move-to-front of the *middle* node. -/
def c2run : Option (Store × NodeShards) := do
  let m ← New cfgOneShard
  let m ← Set m "a" 1 0 100
  let m ← Set m "b" 2 0 100
  let m ← Set m "c" 3 0 100
  let (m, _) ← Get m "b" 100
  let s ← m.pool.get? 0
  some (m.store, s)

/-- `Set` of a fresh key at t=1000; observe the created entry's `expiredAt`. -/
def c3run : Option Int := do
  let m ← New cfgOneShard
  let m ← Set m "a" 5 0 1000
  let s ← m.pool.get? 0
  let id ← assocFind s.pool "a"
  let nd ← storeFind m.store id
  some nd.expiredAt

/-- Dynamic sharding with `shardCap = 5`.  The first `Set` shrinks the initial
4 shards to 2, so the live pool length (2) differs from the construction-time
bucket count (5). -/
def cfgDyn5 : Config := ⟨false, true, 5, 8, 0⟩

/-- `Set "a"`, `Remove "a"`, `Get "a"` under `cfgDyn5`.
`Hash "a" mod 2 = 0` but `(Hash "a" mod 5) mod 2 = 1`, so `Remove` visits a
different shard than `Set` did. -/
def c4run : Option (Option Val) := do
  let m ← New cfgDyn5
  let m ← Set m "a" 77 1 100
  let m ← Remove m "a"
  let (_, r) ← Get m "a" 101
  some r

/-- Two inserts (`"a"` without TTL, `"b"` with ttl 50 s), a hit on `"a"`
(which re-pushes `"a"`, leaving `nodeIndex["b"]` stale), then a `Get` of the
now-expired `"b"`. -/
def c5run : Option (Option Val × NodeShards × Store) := do
  let m ← New cfgOneShard
  let m ← SetTTL m "a" 11 1 0 100
  let m ← SetTTL m "b" 12 1 50 100
  let (m, _) ← Get m "a" 110
  let (m, r2) ← Get m "b" 200
  let s ← m.pool.get? 0
  some (r2, s, m.store)

/-- Dynamic sharding with `nodeCap = 1`: every shard always satisfies
`size ≥ nodeCap - 1`, so every `Set` grows the pool. -/
def cfgDynGrow : Config := ⟨false, true, 4, 1, 0⟩

/-- Seven inserts of distinct keys under `cfgDynGrow` (`shardCap = 4`). -/
def c6run : Option CacheManager := do
  let m ← New cfgDynGrow
  (List.range 7).foldlM (fun acc i => Set acc ("k" ++ toString i) 1 1 100) m

/-- A configuration with non-positive `nodeCap` (and positive `shardCap`). -/
def cfgNoValidation : Config := ⟨false, false, 2, 0, 0⟩

/-- `removeTail` applied to a freshly constructed (empty) shard. -/
def c8run : Option (NodeId × NodeShards) := do
  let m ← New cfgOneShard
  let s ← m.pool.get? 0
  let (_, _, ev) ← removeTail m.store s
  some (ev, s)

/-- Four inserts under `cfgDynGrow`: the rebalance after the fourth insert
re-homes two colliding keys into one shard of capacity 1, leaving that shard
with `size = 2 > capacity = 1` after the call returns. -/
def c9run : Option CacheManager := do
  let m ← New cfgDynGrow
  (List.range 4).foldlM (fun acc i => Set acc ("k" ++ toString i) 1 1 100) m

def c9store : Store :=
  match c9run with
  | some m => m.store
  | none => []

def c9shard : NodeShards :=
  match c9run with
  | some m =>
      match m.pool.get? 2 with
      | some s => s
      | none => default
  | none => default

/-- A fresh two-shard static manager, for the `Get`-miss witness. -/
def c10m : CacheManager :=
  match New ⟨false, false, 2, 4, 0⟩ with
  | some m => m
  | none => default

def c10shard : NodeShards :=
  match c10m.pool.get? (Hash "q" % c10m.pool.length) with
  | some s => s
  | none => default

/-! ## Claim theorems -/

/-- Claim C1 (refuted — the code contradicts it): after `set_ttl` of one entry
with cost 7 and a sweep that removes it (count 1), the shard's map is empty
but `size` is still 1 and `shardSize` still 7, while the live cost sum is 0.
`cleanExpired` deletes map entries without decrementing either counter. -/
theorem c1_sweep_breaks_counters :
    (c1run.map fun r =>
      (r.2.1.size, r.2.1.pool.length, r.2.1.shardSize, liveCostSum r.1 r.2.1, r.2.2))
    = some (1, 0, 7, 0, 1) := by rfl

/-- Claim C2 (refuted — the code contradicts it): after touching the middle
node `"b"` with move-to-front, the nodes reachable from the head sentinel are
`[3, 4]` (`"b"`, `"c"`) although the map still holds the three live nodes
`[2, 3, 4]` — node 2 (`"a"`) has been cut off the recency list by
`removeFromTail`'s splice. -/
theorem c2_touch_loses_live_node :
    (c2run.map fun r => (reachForward r.1 r.2 10, r.2.pool.map Prod.snd, r.2.size))
    = some ([3, 4], [2, 3, 4], 3) := by rfl

/-- Claim C3 (refuted — the code contradicts it): a fresh `Set` at t=1000
creates the entry with `expiredAt = 0` (never expires), not
`now + 12 h = 44200`. -/
theorem c3_set_leaves_no_default_ttl :
    c3run = some 0 ∧ (0 : Int) ≠ 1000 + 12 * 3600 := ⟨rfl, by decide⟩

/-- Claim C4 (refuted — the code contradicts it): under dynamic sharding,
after `Set "a"` and `Remove "a"` with no other operation on `"a"`, `Get "a"`
still returns the stored value 77 — `Remove` deleted from the wrong shard
because `GetBucket` reduces the hash modulo the construction-time `shardCap`
instead of the live pool length. -/
theorem c4_remove_leaves_entry_retrievable : c4run = some (some 77) := by rfl

/-- Claim C5 (refuted — the code contradicts it): the `Get` of the expired
key `"b"` returns a miss and deletes it from the map, but the eviction heap
afterwards still contains exactly the node whose key is `"b"` (and no longer
the live `"a"`): `heap.Remove` was called with a stale `nodeIndex` value. -/
theorem c5_expired_entry_remains_in_heap :
    (c5run.map fun r =>
      (r.1,
       r.2.1.evictionHeap.map fun id => ((storeFind r.2.2 id).map (·.key)).getD "",
       r.2.1.pool))
    = some (none, ["b"], [("a", 2)]) := by rfl

/-- Claim C6 (refuted — the code contradicts it): after seven `Set`s under
dynamic sharding with `shardCap = 4`, the pool has 5 shards —
`dynamicShardScaling` grows without ever checking `shardCap`. -/
theorem c6_pool_grows_past_shardCap :
    (c6run.map fun m =>
      (m.pool.length, m.shardCap, decide ((m.pool.length : Int) ≤ m.shardCap)))
    = some (5, 4, false) := by rfl

/-- Claim C7, counterexample: with `nodeCap = 0` (non-positive) construction
does not fail — `New` returns a manager with 2 shards on which `Set`
completes normally. -/
theorem c7_invalid_config_constructs :
    (New cfgNoValidation).isSome = true ∧
    ((New cfgNoValidation).map fun m => m.pool.length) = some 2 ∧
    ((New cfgNoValidation).bind fun m => Set m "a" 1 0 100).isSome = true :=
  ⟨rfl, rfl, rfl⟩

theorem addShard_pool_length (m : CacheManager) :
    (addShard m).pool.length = m.pool.length + 1 := by
  simp [addShard]

theorem foldl_addShard_length (n : Nat) (base : CacheManager) :
    ((List.range n).foldl (fun acc _ => addShard acc) base).pool.length
      = base.pool.length + n := by
  induction n generalizing base with
  | zero => rfl
  | succ k ih =>
      rw [List.range_succ, List.foldl_append]
      simp only [List.foldl_cons, List.foldl_nil, addShard_pool_length, ih]
      omega

/-- Claim C7, amended: `New` performs no validation at all.  Construction
succeeds for every configuration with `shardCap ≥ 0` — non-positive `nodeCap`
and zero `shardCap` included — returning 4 shards under dynamic sharding and
exactly `shardCap` shards otherwise; only a negative `shardCap` makes
construction fail (the backing-slice allocation panics). -/
theorem c7_new_never_validates (opt : Config) :
    match New opt with
    | none => opt.shardCap < 0
    | some m =>
        0 ≤ opt.shardCap ∧
        m.pool.length = (if opt.enableDynamicSharding then 4 else opt.shardCap.toNat) := by
  unfold New
  by_cases hc : opt.shardCap < 0
  · rw [if_pos hc]; exact hc
  · rw [if_neg hc]
    refine ⟨by omega, ?_⟩
    rw [foldl_addShard_length]
    cases hd : opt.enableDynamicSharding <;> simp [hd]

/-- Claim C8 (refuted — the code contradicts it): on a freshly constructed
empty shard, `removeTail` returns node 0, which is the shard's head sentinel,
instead of returning nothing. -/
theorem c8_removeTail_returns_head_sentinel :
    (c8run.map fun r => (r.1, r.2.head, r.2.pool.length)) = some (0, 0, 0) := by rfl

theorem cleanExpiredTrim_stuck (σ : Store) (fuel : Nat) :
    ∀ ns : NodeShards, ns.size > ns.capacity → cleanExpiredTrim σ fuel ns = none := by
  induction fuel with
  | zero => intro ns _h; rfl
  | succ k ih =>
      intro ns h
      simp only [cleanExpiredTrim]
      rw [if_pos h]
      split
      · split
        · exact ih _ h
        · rfl
      · exact ih _ h

/-- Claim C9 (refuted — the code contradicts it): the state reached by four
public `Set`s under `cfgDynGrow` has a shard with `size = 2 > capacity = 1`;
on that shard the sweep's trim loop never decrements `size`, so
`cleanExpired` fails to terminate — `none` for every fuel bound. -/
theorem c9_sweep_never_terminates (fuel : Nat) :
    c9shard.size > c9shard.capacity ∧ cleanExpired fuel c9store c9shard 100 = none := by
  refine ⟨by decide, ?_⟩
  unfold cleanExpired
  rw [show cleanExpiredWalk 100 c9shard.pool c9store c9shard 0
        = some (c9store, c9shard, 0) from rfl]
  simp only [Option.bind_eq_bind, Option.some_bind]
  rw [cleanExpiredTrim_stuck c9store fuel c9shard (by decide)]
  rfl

/-- Claim C10 (confirmed): when the routed shard's map does not contain the
key, `Get` returns a miss and the whole manager state — every shard's map,
recency list, heap and counters, and the store — is exactly what it was. -/
theorem c10_get_miss_is_noop (m : CacheManager) (key : String) (now : Int)
    (shard : NodeShards)
    (hpool : m.pool.length ≠ 0)
    (hs : m.pool.get? (Hash key % m.pool.length) = some shard)
    (hmiss : assocFind shard.pool key = none) :
    Get m key now = some (m, none) := by
  unfold Get
  rw [dif_neg hpool]
  simp only [hs, hmiss]

/-- Witness for C10 at a concrete input: a fresh two-shard manager and the
absent key `"q"`. -/
theorem c10_get_miss_is_noop_witness : Get c10m "q" 100 = some (c10m, none) :=
  c10_get_miss_is_noop c10m "q" 100 c10shard (by decide) (by rfl) (by decide)

end Cerebru
